import Mathlib

/-!
# Atom normalizer (`atom.go`)

A shallow embedding of `parseAtom`, `AtomImage.Image` and `AtomAuthor.Author`
together with the properties of the normalized feed they produce.

Conventions of the embedding:

* Go strings are `String`, slices are `List`, pointers to freshly allocated
  records are the records themselves.
* `map[string]struct{}` is a finite set of strings (`Finset String`).
* The XML decoder, `parseTime` and `time.Now` live outside `atom.go`; they are
  parameters of `parseAtom`.
* The package-level `debug` flag is a parameter, and what `fmt.Printf` writes is
  collected as a list of `Printed` records.
-/

set_option linter.dupNamespace false

namespace Rss

/-! ## External values -/

/-- Go `error` values; the nil error is `none : Option Error`. -/
structure Error where
  msg : String
deriving DecidableEq, Repr

/-- Go `time.Time`, as an instant counted in nanoseconds from the zero instant. -/
structure Time where
  ns : Int
deriving DecidableEq, Repr

/-- The zero value of `time.Time`. -/
def Time.zero : Time := ⟨0⟩

/-- Go `time.Minute`, a duration in nanoseconds. -/
def Minute : Int := 60 * 1000000000

/-- Go `Time.Add`. -/
def Time.Add (t : Time) (d : Int) : Time := ⟨t.ns + d⟩

/-- Go `xml.Name`. -/
structure Name where
  Space : String
  Local : String
deriving DecidableEq, Repr

/-! ## Raw document shape (declared in `atom.go`) -/

structure RAWContent where
  RAWContent : String
deriving DecidableEq, Repr

structure AtomLink where
  Href : String
  Rel : String
  Type_ : String
  Length : Nat
deriving DecidableEq, Repr

structure AtomItem where
  XMLName : Name
  Title : String
  Summary : String
  Content : RAWContent
  Links : List AtomLink
  Date : String
  DateValid : Bool
  ID : String
deriving DecidableEq, Repr

structure AtomImage where
  XMLName : Name
  Title : String
  URL : String
  Height : Int
  Width : Int
deriving DecidableEq, Repr

structure AtomAuthor where
  Name : String
  URI : String
  Email : String
  Extensions : List AtomLink
deriving DecidableEq, Repr

structure AtomFeed where
  XMLName : Name
  Title : String
  Description : String
  Author : AtomAuthor
  Link : List AtomLink
  Image : AtomImage
  Items : List AtomItem
  Updated : String
deriving DecidableEq, Repr

/-! ## Normalized output

The declarations of `Feed`, `Item`, `Enclosure`, `Image`, `Author` and `Link`
are not part of `atom.go`; their fields are the ones `atom.go` assigns. -/

/-- Modelled from the spec: the `Enclosure` record (URL, media type, byte
length), whose declaration is outside `atom.go`. `Length` receives an
`AtomLink.Length` without conversion, so it has the same unsigned type. -/
structure Enclosure where
  URL : String
  Type_ : String
  Length : Nat
deriving DecidableEq, Repr

/-- Modelled from the spec: the author extension `Link` record, whose
declaration is outside `atom.go`; the fields are those `Author()` assigns. -/
structure Link where
  Href : String
  Rel : String
  Type_ : String
deriving DecidableEq, Repr

/-- Modelled from the spec: the `Author` record, whose declaration is outside
`atom.go`; the fields are those `Author()` assigns. -/
structure Author where
  Name : String
  URI : String
  Email : String
  Extensions : List Link
deriving DecidableEq, Repr

/-- Modelled from the spec: the `Image` record, whose declaration is outside
`atom.go`. `Height` and `Width` hold the results of `uint32(...)`
conversions, so they are naturals below `2 ^ 32`. -/
structure Image where
  Title : String
  URL : String
  Height : Nat
  Width : Nat
deriving DecidableEq, Repr

/-- Modelled from the spec: the `Item` record (title, summary, content,
identifier, primary link, enclosures, date with validity flag, read flag),
whose declaration is outside `atom.go`. -/
structure Item where
  Title : String
  Summary : String
  Content : String
  Link : String
  Date : Time
  DateValid : Bool
  ID : String
  Enclosures : List Enclosure
  Read : Bool
deriving DecidableEq, Repr

/-- Modelled from the spec: the `Feed` record, whose declaration is outside
`atom.go`: metadata, the ordered item list, the set of known item identifiers
and the unread count. The unread count is a counter the spec gives no width
for; it is a natural number here. -/
structure Feed where
  Title : String
  Description : String
  Author : Author
  Link : String
  Image : Image
  Refresh : Time
  Items : List Item
  ItemMap : Finset String
  Unread : Nat
deriving DecidableEq

/-- The zero value of `Item`, as `new(Item)` allocates it. -/
def Item.new : Item :=
  { Title := "", Summary := "", Content := "", Link := "", Date := Time.zero,
    DateValid := false, ID := "", Enclosures := [], Read := false }

/-- The zero value of `Feed`, as `new(Feed)` allocates it (nil pointers for
the author and the image are the zero records here; `parseAtom` overwrites both
before anything reads them). -/
def Feed.new : Feed :=
  { Title := "", Description := "",
    Author := { Name := "", URI := "", Email := "", Extensions := [] },
    Link := "",
    Image := { Title := "", URL := "", Height := 0, Width := 0 },
    Refresh := Time.zero, Items := [], ItemMap := ∅, Unread := 0 }

/-! ## Projections of the author and the image -/

/-- Go conversion `uint32(x)` of an `int`: reduction modulo `2 ^ 32`. -/
def toUint32 (x : Int) : Nat := (x % (2 ^ 32 : Int)).toNat

/-- `func (a *AtomImage) Image() *Image`. -/
def AtomImage.Image (a : AtomImage) : Image :=
  { Title := a.Title, URL := a.URL,
    Height := toUint32 a.Height, Width := toUint32 a.Width }

/-- Body of the loop of `Author()`: a fresh `Link` is filled from `ext` and
appended to `e`. -/
def authorStep (e : List Link) (ext : AtomLink) : List Link :=
  e ++ [{ Href := ext.Href, Rel := ext.Rel, Type_ := ext.Type_ }]

/-- `func (a *AtomAuthor) Author() *Author`. -/
def AtomAuthor.Author (a : AtomAuthor) : Author :=
  { Name := a.Name, URI := a.URI, Email := a.Email,
    Extensions := a.Extensions.foldl authorStep [] }

/-! ## `parseAtom` -/

/-- What `parseAtom` writes to standard output, one record per `fmt.Printf`. -/
inductive Printed where
  | noID (title : String)
  | rawEntry (item : AtomItem)
  | duplicateID (title : String)
  | itemValue (next : Item)
  | encounteredWarnings (data : List Nat)
deriving DecidableEq

/-- The test `link.Rel == "alternate" || link.Rel == ""` used for the feed
and for every entry. -/
def isPrimary (link : AtomLink) : Bool :=
  link.Rel == "alternate" || link.Rel == ""

/-- The feed-level link loop (lines 24-29): the first qualifying link sets
`out.Link` and leaves the loop. -/
def feedLink (out : String) : List AtomLink → String
  | [] => out
  | link :: rest => if isPrimary link then link.Href else feedLink out rest

/-- Body of the entry-level link loop (lines 55-65). -/
def linkStep (next : Item) (link : AtomLink) : Item :=
  if isPrimary link then
    { next with Link := link.Href }
  else
    { next with Enclosures := next.Enclosures ++
        [{ URL := link.Href, Type_ := link.Type_, Length := link.Length }] }

/-- Lines 44-66: the item built from an entry, together with the value the
shared variable `err` has afterwards. -/
def buildItem (parseTime : String → Time × Option Error) (err : Option Error)
    (item : AtomItem) : Item × Option Error :=
  let next := Item.new
  let next := { next with Title := item.Title }
  let next := { next with Summary := item.Summary }
  let next := { next with Content := item.Content.RAWContent }
  let r : Item × Option Error :=
    if item.Date ≠ "" then
      let p := parseTime item.Date
      let next := { next with Date := p.1 }
      if p.2 = none then ({ next with DateValid := true }, p.2) else (next, p.2)
    else (next, err)
  let next := r.1
  let next := { next with ID := item.ID }
  let next := item.Links.foldl linkStep next
  let next := { next with Read := false }
  (next, r.2)

/-- The variables the entry loop reads and writes: the feed under
construction, the `warnings` flag, the shared `err` and standard output. -/
structure LoopState where
  out : Feed
  warnings : Bool
  err : Option Error
  stdout : List Printed

/-- Body of the entry loop (lines 37-89). -/
def processItem (parseTime : String → Time × Option Error) (debug : Bool)
    (st : LoopState) (item : AtomItem) : LoopState :=
  if item.ID ∈ st.out.ItemMap then st
  else
    let b := buildItem parseTime st.err item
    let next := b.1
    if next.ID = "" then
      { st with
        err := b.2
        stdout := if debug then st.stdout ++ [Printed.noID next.Title, Printed.rawEntry item]
                  else st.stdout
        warnings := true }
    else if next.ID ∈ st.out.ItemMap then
      { st with
        err := b.2
        stdout := if debug then st.stdout ++ [Printed.duplicateID next.Title, Printed.itemValue next]
                  else st.stdout
        warnings := true }
    else
      { st with
        err := b.2
        out := { st.out with
                 Items := st.out.Items ++ [next]
                 ItemMap := insert next.ID st.out.ItemMap
                 Unread := st.out.Unread + 1 } }

/-- The entry loop (lines 37-89) run over a list of entries. -/
def processItems (parseTime : String → Time × Option Error) (debug : Bool)
    (st : LoopState) (items : List AtomItem) : LoopState :=
  items.foldl (processItem parseTime debug) st

/-- Lines 20-34: the feed before the entry loop starts. -/
def initFeed (now : Time) (feed : AtomFeed) : Feed :=
  let out := Feed.new
  let out := { out with Title := feed.Title }
  let out := { out with Description := feed.Description }
  let out := { out with Author := feed.Author.Author }
  let out := { out with Link := feedLink out.Link feed.Link }
  let out := { out with Image := feed.Image.Image }
  let out := { out with Refresh := now.Add (10 * Minute) }
  let out := { out with Items := [] }
  let out := { out with ItemMap := ∅ }
  out

/-- State of the variables of `parseAtom` when the entry loop is entered:
`warnings` is false and `err` is the nil error the decoder returned. -/
def initState (now : Time) (feed : AtomFeed) : LoopState :=
  { out := initFeed now feed, warnings := false, err := none, stdout := [] }

/-- State of the variables of `parseAtom` when the entry loop is left. -/
def entryLoop (parseTime : String → Time × Option Error) (now : Time) (debug : Bool)
    (feed : AtomFeed) : LoopState :=
  processItems parseTime debug (initState now feed) feed.Items

/-- What a call of `parseAtom` yields: the two returned values (a nil `*Feed`
is `none`, a nil `error` is `none`) and the text written to standard output. -/
structure Result where
  feed : Option Feed
  err : Option Error
  stdout : List Printed

/-- `func parseAtom(data []byte) (*Feed, error)`. The parameters are what the
function takes from outside `atom.go`: the XML decoder (with its charset
reader), `parseTime`, the reading of the clock and the `debug` flag. -/
def parseAtom (decode : List Nat → Except Error AtomFeed)
    (parseTime : String → Time × Option Error) (now : Time) (debug : Bool)
    (data : List Nat) : Result :=
  match decode data with
  | Except.error err => { feed := none, err := some err, stdout := [] }
  | Except.ok feed =>
    let st := entryLoop parseTime now debug feed
    let stdout :=
      if st.warnings && debug then st.stdout ++ [Printed.encounteredWarnings data]
      else st.stdout
    { feed := some st.out, err := none, stdout := stdout }

/-! ## `Author()` on the level of pointers -/

/-- The zero value of `Link`, as `new(Link)` allocates it. -/
def Link.new : Link := { Href := "", Rel := "", Type_ := "" }

/-- The memory `Author()` works on: the `Link` cells allocated so far (a
pointer is the index of its cell, `none` is nil), the pointer variable `l` and
the slice `e` of pointers. -/
structure AuthorMem where
  cells : List Link
  l : Option Nat
  e : List (Option Nat)

/-- `l = new(Link)`: a fresh zero cell is allocated and `l` points to it. -/
def AuthorMem.alloc (m : AuthorMem) : AuthorMem :=
  { m with cells := m.cells ++ [Link.new], l := some m.cells.length }

/-- An assignment to a field of `*l`: the cell `l` points to is updated (no
cell is, for a nil `l`; the loop never writes through one). -/
def AuthorMem.store (m : AuthorMem) (f : Link → Link) : AuthorMem :=
  match m.l with
  | some p => { m with cells := m.cells.set p (f (m.cells.getD p Link.new)) }
  | none => m

/-- Body of the loop of `Author()` (lines 159-164) on pointers. -/
def authorStepMem (m : AuthorMem) (ext : AtomLink) : AuthorMem :=
  let m := { m with l := none }
  let m := m.alloc
  let m := m.store (fun c => { c with Href := ext.Href })
  let m := m.store (fun c => { c with Rel := ext.Rel })
  let m := m.store (fun c => { c with Type_ := ext.Type_ })
  { m with e := m.e ++ [m.l] }

/-- Lines 156-165 of `Author()` on pointers: the memory when the loop is left. -/
def AtomAuthor.authorMem (a : AtomAuthor) : AuthorMem :=
  let m : AuthorMem := { cells := [], l := none, e := [] }
  let m := m.alloc
  a.Extensions.foldl authorStepMem m

/-- The cell a pointer points to. -/
def deref (cells : List Link) (p : Option Nat) : Option Link :=
  match p with
  | some i => cells[i]?
  | none => none

/-! ## `parseAtom` without the second duplicate check -/

/-- The body of the entry loop with the second duplicate check (lines 77-84)
removed. -/
def processItemNoSecondCheck (parseTime : String → Time × Option Error) (debug : Bool)
    (st : LoopState) (item : AtomItem) : LoopState :=
  if item.ID ∈ st.out.ItemMap then st
  else
    let b := buildItem parseTime st.err item
    let next := b.1
    if next.ID = "" then
      { st with
        err := b.2
        stdout := if debug then st.stdout ++ [Printed.noID next.Title, Printed.rawEntry item]
                  else st.stdout
        warnings := true }
    else
      { st with
        err := b.2
        out := { st.out with
                 Items := st.out.Items ++ [next]
                 ItemMap := insert next.ID st.out.ItemMap
                 Unread := st.out.Unread + 1 } }

/-- The entry loop with the second duplicate check removed. -/
def entryLoopNoSecondCheck (parseTime : String → Time × Option Error) (now : Time)
    (debug : Bool) (feed : AtomFeed) : LoopState :=
  feed.Items.foldl (processItemNoSecondCheck parseTime debug) (initState now feed)

/-- The function `parseAtom` with the second duplicate check removed. -/
def parseAtomNoSecondCheck (decode : List Nat → Except Error AtomFeed)
    (parseTime : String → Time × Option Error) (now : Time) (debug : Bool)
    (data : List Nat) : Result :=
  match decode data with
  | Except.error err => { feed := none, err := some err, stdout := [] }
  | Except.ok feed =>
    let st := entryLoopNoSecondCheck parseTime now debug feed
    let stdout :=
      if st.warnings && debug then st.stdout ++ [Printed.encounteredWarnings data]
      else st.stdout
    { feed := some st.out, err := none, stdout := stdout }

/-! ## Reading of the loop as list functions -/

/-- The enclosure the entry-level link loop builds from a link (lines 59-63). -/
def AtomLink.toEnclosure (link : AtomLink) : Enclosure :=
  { URL := link.Href, Type_ := link.Type_, Length := link.Length }

/-- The entries for which the loop body reaches line 86 when the identifiers
in `seen` are already in the identifier set: an entry is passed over when its
identifier is in the set or is empty, and an accepted identifier joins the
set for the entries that follow. -/
def acceptedFrom (seen : Finset String) : List AtomItem → List AtomItem
  | [] => []
  | e :: es =>
    if e.ID ∈ seen ∨ e.ID = "" then acceptedFrom seen es
    else e :: acceptedFrom (insert e.ID seen) es

/-! ## Specification-side functions -/

/-- A list of identifiers with every repeated identifier reduced to its first
occurrence, the order of the list kept. -/
def firstOccurrences : List String → List String
  | [] => []
  | x :: xs => x :: (firstOccurrences xs).filter (fun y => y ≠ x)

/-- The identifiers of the entries of a document, in document order. -/
def entryIDs (feed : AtomFeed) : List String := feed.Items.map AtomItem.ID

/-- The first entry of a list that carries the identifier `x`. -/
def firstEntryWithID (es : List AtomItem) (x : String) : Option AtomItem :=
  es.find? (fun e => e.ID = x)

/-- A link qualifies as primary when its relation is exactly "alternate" or
the empty string. -/
def qualifies (link : AtomLink) : Prop := link.Rel = "alternate" ∨ link.Rel = ""

instance (link : AtomLink) : Decidable (qualifies link) := by
  unfold qualifies; infer_instance

/-- The href of the last qualifying link of a list, the empty string when
there is none. -/
def lastQualifyingHref (links : List AtomLink) : String :=
  match (links.filter (fun l => qualifies l)).getLast? with
  | some l => l.Href
  | none => ""

/-- The href of the first qualifying link of a list, the empty string when
there is none. -/
def firstQualifyingHref (links : List AtomLink) : String :=
  match links.find? (fun l => qualifies l) with
  | some l => l.Href
  | none => ""

/-- The enclosure that carries the href, media type and declared length of a
link, unchanged. -/
def enclosureOfLink (l : AtomLink) : Enclosure :=
  { URL := l.Href, Type_ := l.Type_, Length := l.Length }

/-! ## Sample inputs -/

/-- An entry with the given identifier, title and links and no other content. -/
def sampleEntry (id title date : String) (links : List AtomLink) : AtomItem :=
  { XMLName := ⟨"", "entry"⟩, Title := title, Summary := "", Content := ⟨""⟩,
    Links := links, Date := date, DateValid := false, ID := id }

/-- A document with the given feed-level links and entries. -/
def sampleFeed (links : List AtomLink) (items : List AtomItem) : AtomFeed :=
  { XMLName := ⟨"", "feed"⟩, Title := "t", Description := "", Author := ⟨"", "", "", []⟩,
    Link := links, Image := ⟨⟨"", "image"⟩, "", "", 0, 0⟩, Items := items, Updated := "" }

/-- A decoder that fails on the empty buffer and yields `feed` on any other. -/
def sampleDecode (feed : AtomFeed) (data : List Nat) : Except Error AtomFeed :=
  if data = [] then Except.error ⟨"EOF"⟩ else Except.ok feed

/-- A `parseTime` that accepts one timestamp and rejects every other string. -/
def sampleParseTime (s : String) : Time × Option Error :=
  if s = "2024-01-01T00:00:00Z" then (⟨1704067200000000000⟩, none)
  else (Time.zero, some ⟨"cannot parse"⟩)

/-- Two entries that both lack an identifier. -/
def twoEntriesWithoutID : AtomFeed :=
  sampleFeed [] [sampleEntry "" "first" "" [], sampleEntry "" "second" "" []]

/-- Entries with identifiers a, (none), b, a. -/
def mixedEntries : AtomFeed :=
  sampleFeed []
    [sampleEntry "a" "first" "2024-01-01T00:00:00Z" [], sampleEntry "" "second" "" [],
     sampleEntry "b" "third" "yesterday" [], sampleEntry "a" "fourth" "" []]

/-- A decoder that fails on the empty buffer, yields `a` on a buffer that
starts with the byte 60 and `b` on any other. -/
def sampleDecodeTwo (a b : AtomFeed) (data : List Nat) : Except Error AtomFeed :=
  match data with
  | [] => Except.error ⟨"EOF"⟩
  | c :: _ => if c = 60 then Except.ok a else Except.ok b

/-- A link with the given relation and href, of type audio/mpeg and length 7. -/
def sampleLink (rel href : String) : AtomLink :=
  { Href := href, Rel := rel, Type_ := "audio/mpeg", Length := 7 }

/-- One entry with links alternate A, enclosure X, alternate B, enclosure Y,
under feed-level links enclosure E, alternate A, (no relation) B. -/
def linkedEntries : AtomFeed :=
  sampleFeed [sampleLink "enclosure" "E", sampleLink "alternate" "A", sampleLink "" "B"]
    [sampleEntry "a" "first" "" [sampleLink "alternate" "A", sampleLink "enclosure" "X",
      sampleLink "alternate" "B", sampleLink "enclosure" "Y"]]

/-- Entries a, b, c whose date strings are accepted, empty and rejected. -/
def datedEntries : AtomFeed :=
  sampleFeed []
    [sampleEntry "a" "first" "2024-01-01T00:00:00Z" [], sampleEntry "b" "second" "" [],
     sampleEntry "c" "third" "yesterday" []]

/-- A `parseTime` that rejects every string and hands back a non-zero instant
together with its error. -/
def rejectingParseTime (_ : String) : Time × Option Error :=
  (⟨5⟩, some ⟨"cannot parse"⟩)

/-- One entry with identifier c and the date string "yesterday". -/
def undatedEntry : AtomFeed :=
  sampleFeed [] [sampleEntry "c" "third" "yesterday" []]

/-- An image whose height is negative and whose width exceeds 32 bits. -/
def oddImage : AtomImage :=
  { XMLName := ⟨"", "image"⟩, Title := "logo", URL := "u", Height := -1, Width := 4294967296 }

/-- The link record that carries href, relation and media type of an
extension link. -/
def linkOfAtomLink (ext : AtomLink) : Link :=
  { Href := ext.Href, Rel := ext.Rel, Type_ := ext.Type_ }

/-- An author with the extension links A, B and C. -/
def sampleAuthor : AtomAuthor :=
  { Name := "n", URI := "u", Email := "m",
    Extensions := [sampleLink "me" "A", sampleLink "related" "B", sampleLink "" "C"] }

/-- Two entries that carry the same identifier a. -/
def duplicateEntries : AtomFeed :=
  sampleFeed [] [sampleEntry "a" "first" "" [], sampleEntry "a" "second" "" []]

/-- Entries with the distinct identifiers a, b, c. -/
def distinctEntries : List AtomItem :=
  [sampleEntry "a" "first" "" [], sampleEntry "b" "second" "" [],
   sampleEntry "c" "third" "" []]

/-! ## Properties -/

theorem foldl_linkStep (links : List AtomLink) (next : Item) :
    links.foldl linkStep next =
      { next with
        Link := ((links.filter isPrimary).getLast?.map AtomLink.Href).getD next.Link
        Enclosures := next.Enclosures ++
          (links.filter (fun l => !isPrimary l)).map AtomLink.toEnclosure } := by
  induction links generalizing next with
  | nil => simp
  | cons l ls ih =>
    rw [List.foldl_cons, ih]
    by_cases h : isPrimary l = true
    · simp [linkStep, h, List.getLast?_cons]
    · simp [linkStep, h, AtomLink.toEnclosure]

/-- The item of lines 44-66 does not depend on the value `err` had before. -/
theorem buildItem_fst (pt : String → Time × Option Error) (err : Option Error)
    (e : AtomItem) :
    (buildItem pt err e).1 =
      { Title := e.Title, Summary := e.Summary, Content := e.Content.RAWContent,
        Link := ((e.Links.filter isPrimary).getLast?.map AtomLink.Href).getD "",
        Date := if e.Date = "" then Time.zero else (pt e.Date).1,
        DateValid := decide (e.Date ≠ "" ∧ (pt e.Date).2 = none),
        ID := e.ID,
        Enclosures := (e.Links.filter (fun l => !isPrimary l)).map AtomLink.toEnclosure,
        Read := false } := by
  unfold buildItem
  simp only [foldl_linkStep]
  by_cases hd : e.Date = ""
  · simp [hd, Item.new]
  · by_cases hp : (pt e.Date).2 = none
    · simp [hd, hp, Item.new]
    · simp [hd, hp, Item.new]

theorem buildItem_ID (pt : String → Time × Option Error) (err : Option Error)
    (e : AtomItem) : (buildItem pt err e).1.ID = e.ID := by
  rw [buildItem_fst]

theorem buildItem_fst_err (pt : String → Time × Option Error) (err : Option Error)
    (e : AtomItem) : (buildItem pt err e).1 = (buildItem pt none e).1 := by
  rw [buildItem_fst, buildItem_fst]

/-- One pass of the loop body on the output feed: an entry that is not accepted
leaves the feed as it is, an accepted one is appended, recorded and counted. -/
theorem processItem_out (pt : String → Time × Option Error) (debug : Bool)
    (st : LoopState) (e : AtomItem) :
    (processItem pt debug st e).out =
      if e.ID ∈ st.out.ItemMap ∨ e.ID = "" then st.out
      else { st.out with
             Items := st.out.Items ++ [(buildItem pt none e).1]
             ItemMap := insert e.ID st.out.ItemMap
             Unread := st.out.Unread + 1 } := by
  unfold processItem
  by_cases h1 : e.ID ∈ st.out.ItemMap
  · simp [h1]
  · rw [if_neg h1]
    by_cases h2 : e.ID = ""
    · simp [h2, buildItem_ID]
    · simp [h1, h2, buildItem_ID, buildItem_fst_err pt st.err e]

/-- The output feed after the loop has run over `es` from any state. -/
theorem processItems_out (pt : String → Time × Option Error) (debug : Bool)
    (es : List AtomItem) (st : LoopState) :
    (processItems pt debug st es).out =
      { st.out with
        Items := st.out.Items ++
          (acceptedFrom st.out.ItemMap es).map (fun e => (buildItem pt none e).1)
        ItemMap := st.out.ItemMap ∪
          ((acceptedFrom st.out.ItemMap es).map AtomItem.ID).toFinset
        Unread := st.out.Unread + (acceptedFrom st.out.ItemMap es).length } := by
  induction es generalizing st with
  | nil => simp [processItems, acceptedFrom]
  | cons e es ih =>
    have hstep : processItems pt debug st (e :: es) =
        processItems pt debug (processItem pt debug st e) es := rfl
    rw [hstep, ih, processItem_out]
    by_cases h : e.ID ∈ st.out.ItemMap ∨ e.ID = ""
    · simp [h, acceptedFrom]
    · simp only [h, if_false, acceptedFrom]
      simp [Nat.add_assoc, Nat.add_comm 1]

/-! ### The accepted entries -/

theorem mem_acceptedFrom {seen : Finset String} {es : List AtomItem} {e : AtomItem}
    (h : e ∈ acceptedFrom seen es) : e ∈ es ∧ e.ID ∉ seen ∧ e.ID ≠ "" := by
  induction es generalizing seen with
  | nil => simp [acceptedFrom] at h
  | cons a es ih =>
    unfold acceptedFrom at h
    split at h
    · obtain ⟨h1, h2, h3⟩ := ih h
      exact ⟨List.mem_cons_of_mem _ h1, h2, h3⟩
    · rename_i hc
      rw [not_or] at hc
      rcases List.mem_cons.1 h with rfl | h
      · exact ⟨List.mem_cons_self _ _, hc.1, hc.2⟩
      · obtain ⟨h1, h2, h3⟩ := ih h
        refine ⟨List.mem_cons_of_mem _ h1, fun hm => h2 (Finset.mem_insert_of_mem hm), h3⟩

theorem acceptedFrom_sublist (seen : Finset String) (es : List AtomItem) :
    (acceptedFrom seen es).Sublist es := by
  induction es generalizing seen with
  | nil => simp [acceptedFrom]
  | cons a es ih =>
    unfold acceptedFrom
    split
    · exact (ih seen).cons _
    · exact (ih _).cons₂ _

theorem acceptedFrom_ids (seen : Finset String) (es : List AtomItem) :
    (acceptedFrom seen es).map AtomItem.ID =
      (firstOccurrences ((es.map AtomItem.ID).filter (fun x => x ≠ ""))).filter
        (fun x => x ∉ seen) := by
  induction es generalizing seen with
  | nil => simp [acceptedFrom, firstOccurrences]
  | cons a es ih =>
    unfold acceptedFrom
    by_cases h2 : a.ID = ""
    · simp [h2, ih, firstOccurrences]
    · by_cases h1 : a.ID ∈ seen
      · simp only [h1, true_or, if_true, ih, List.map_cons, List.filter_cons, h2, ne_eq,
          not_false_eq_true, decide_True, firstOccurrences, not_true_eq_false, decide_False,
          List.filter_filter]
        simp only [Bool.false_eq_true, if_false]
        apply List.filter_congr
        intro x _
        by_cases hx : x ∈ seen
        · simp [hx]
        · have : x ≠ a.ID := fun hxa => hx (hxa ▸ h1)
          simp [hx, this]
      · simp only [h1, h2, or_self, if_false, ih, List.map_cons, List.filter_cons, ne_eq,
          not_false_eq_true, decide_True, firstOccurrences, if_true, List.filter_filter]
        congr 1
        apply List.filter_congr
        intro x _
        simp [Finset.mem_insert, not_or, Bool.and_comm]

theorem nodup_firstOccurrences (l : List String) : (firstOccurrences l).Nodup := by
  induction l with
  | nil => simp [firstOccurrences]
  | cons x xs ih =>
    unfold firstOccurrences
    rw [List.nodup_cons]
    exact ⟨by simp [List.mem_filter], ih.filter _⟩

theorem mem_firstOccurrences (l : List String) (x : String) :
    x ∈ firstOccurrences l ↔ x ∈ l := by
  induction l with
  | nil => simp [firstOccurrences]
  | cons y ys ih =>
    unfold firstOccurrences
    by_cases h : x = y
    · simp [h]
    · simp [h, List.mem_filter, ih]

theorem firstOccurrences_sublist (l : List String) : (firstOccurrences l).Sublist l := by
  induction l with
  | nil => simp [firstOccurrences]
  | cons y ys ih =>
    unfold firstOccurrences
    exact ((List.filter_sublist _).trans ih).cons₂ _

/-! ### The feed `parseAtom` returns -/

theorem processItems_init_out (pt : String → Time × Option Error) (now : Time)
    (debug : Bool) (doc : AtomFeed) (es : List AtomItem) :
    (processItems pt debug (initState now doc) es).out =
      { initFeed now doc with
        Items := (acceptedFrom ∅ es).map (fun e => (buildItem pt none e).1)
        ItemMap := ((acceptedFrom ∅ es).map AtomItem.ID).toFinset
        Unread := (acceptedFrom ∅ es).length } := by
  rw [processItems_out]
  simp [initState, initFeed, Feed.new]

theorem parseAtom_ok (decode : List Nat → Except Error AtomFeed)
    (pt : String → Time × Option Error) (now : Time) (debug : Bool) (data : List Nat)
    (doc : AtomFeed) (h : decode data = Except.ok doc) :
    (parseAtom decode pt now debug data).feed =
        some (processItems pt debug (initState now doc) doc.Items).out ∧
      (parseAtom decode pt now debug data).err = none := by
  simp [parseAtom, h, entryLoop]

theorem map_ID_built (pt : String → Time × Option Error) (es : List AtomItem) :
    (es.map (fun e => (buildItem pt none e).1)).map Item.ID = es.map AtomItem.ID := by
  simp [List.map_map, Function.comp_def, buildItem_ID]

theorem nodup_acceptedFrom_ids (seen : Finset String) (es : List AtomItem) :
    ((acceptedFrom seen es).map AtomItem.ID).Nodup := by
  rw [acceptedFrom_ids]
  exact (nodup_firstOccurrences _).filter _

theorem mem_acceptedFrom_ids (es : List AtomItem) (x : String) :
    x ∈ (acceptedFrom ∅ es).map AtomItem.ID ↔ x ∈ es.map AtomItem.ID ∧ x ≠ "" := by
  rw [acceptedFrom_ids]
  simp [List.mem_filter, mem_firstOccurrences]

/-- Invariant of the entry loop, for a feed reached from the initial state. -/
theorem processItems_init_invariant (pt : String → Time × Option Error) (now : Time)
    (debug : Bool) (doc : AtomFeed) (es : List AtomItem) :
    (∀ it ∈ (processItems pt debug (initState now doc) es).out.Items, it.ID ≠ "") ∧
      (∀ x, x ∈ (processItems pt debug (initState now doc) es).out.ItemMap ↔
        ∃ it ∈ (processItems pt debug (initState now doc) es).out.Items, it.ID = x) := by
  rw [processItems_init_out]
  constructor
  · intro it hit
    obtain ⟨e, he, rfl⟩ := List.mem_map.1 hit
    rw [buildItem_ID]
    exact (mem_acceptedFrom he).2.2
  · intro x
    simp only [List.mem_toFinset, List.mem_map]
    constructor
    · rintro ⟨e, he, rfl⟩
      exact ⟨_, ⟨e, he, rfl⟩, buildItem_ID pt none e⟩
    · rintro ⟨it, ⟨e, he, rfl⟩, rfl⟩
      exact ⟨e, he, (buildItem_ID pt none e).symm⟩

theorem processItems_init_ids (pt : String → Time × Option Error) (now : Time)
    (debug : Bool) (doc : AtomFeed) (es : List AtomItem) :
    (processItems pt debug (initState now doc) es).out.Items.map Item.ID =
      (acceptedFrom ∅ es).map AtomItem.ID := by
  rw [processItems_init_out]
  exact map_ID_built pt _

theorem ids_ne_of_nodup {l : List Item} (hnd : (l.map Item.ID).Nodup) (i j : Nat)
    (hi : i < l.length) (hj : j < l.length) (hij : i ≠ j) :
    (l.get ⟨i, hi⟩).ID ≠ (l.get ⟨j, hj⟩).ID := by
  intro heq
  have hi2 : i < (l.map Item.ID).length := by simpa using hi
  have hj2 : j < (l.map Item.ID).length := by simpa using hj
  have h2 : (l.map Item.ID)[i] = (l.map Item.ID)[j] := by simpa using heq
  exact hij ((List.Nodup.getElem_inj_iff hnd).1 h2)

theorem find_acceptedFrom {seen : Finset String} {es : List AtomItem} {e : AtomItem}
    (h : e ∈ acceptedFrom seen es) : firstEntryWithID es e.ID = some e := by
  induction es generalizing seen with
  | nil => simp [acceptedFrom] at h
  | cons a es ih =>
    unfold acceptedFrom at h
    unfold firstEntryWithID
    split at h
    · rename_i hc
      obtain ⟨_, h2, h3⟩ := mem_acceptedFrom h
      have hne : a.ID ≠ e.ID := by
        rintro heq
        rcases hc with hc | hc
        · exact h2 (heq ▸ hc)
        · exact h3 (heq ▸ hc)
      rw [List.find?_cons_of_neg _ (by simpa using hne)]
      exact ih h
    · rcases List.mem_cons.1 h with rfl | h
      · simp
      · obtain ⟨_, h2, _⟩ := mem_acceptedFrom h
        have hne : a.ID ≠ e.ID := fun heq => h2 (heq ▸ Finset.mem_insert_self _ _)
        rw [List.find?_cons_of_neg _ (by simpa using hne)]
        exact ih h

/-- Every item of the feed the loop builds from the initial state is the item
lines 44-66 build from the first entry that carries its ID. -/
theorem processItems_init_source (pt : String → Time × Option Error) (now : Time)
    (debug : Bool) (doc : AtomFeed) (es : List AtomItem) (it : Item)
    (hit : it ∈ (processItems pt debug (initState now doc) es).out.Items) :
    ∃ e, firstEntryWithID es it.ID = some e ∧ it = (buildItem pt none e).1 := by
  rw [processItems_init_out] at hit
  obtain ⟨e, he, rfl⟩ := List.mem_map.1 hit
  refine ⟨e, ?_, rfl⟩
  rw [buildItem_ID]
  exact find_acceptedFrom he

theorem acceptedFrom_filter_nonempty (seen : Finset String) (es : List AtomItem) :
    acceptedFrom seen (es.filter (fun e => e.ID ≠ "")) = acceptedFrom seen es := by
  induction es generalizing seen with
  | nil => rfl
  | cons a es ih =>
    simp only [ne_eq, decide_not] at ih ⊢
    by_cases h : a.ID = ""
    · simp [List.filter_cons, h, acceptedFrom, ih]
    · simp [List.filter_cons, h, acceptedFrom, ih]

/-- An entry without identifier leaves the feed under construction as it is,
whatever the state of the loop. -/
theorem processItem_empty_id (pt : String → Time × Option Error) (debug : Bool)
    (st : LoopState) (e : AtomItem) (h : e.ID = "") :
    (processItem pt debug st e).out = st.out := by
  rw [processItem_out]
  simp [h]

theorem toFinset_acceptedFrom_ids (es : List AtomItem) :
    ((acceptedFrom ∅ es).map AtomItem.ID).toFinset =
      ((es.map AtomItem.ID).filter (fun x => x ≠ "")).toFinset := by
  ext x
  rw [List.mem_toFinset, mem_acceptedFrom_ids, List.mem_toFinset, List.mem_filter]
  simp

theorem isPrimary_eq (l : AtomLink) : isPrimary l = decide (qualifies l) := by
  by_cases h1 : l.Rel = "alternate" <;> by_cases h2 : l.Rel = "" <;>
    simp [isPrimary, qualifies, h1, h2]

theorem isPrimary_eq_fun : isPrimary = fun l => decide (qualifies l) :=
  funext isPrimary_eq

theorem feedLink_eq (out : String) (links : List AtomLink) :
    feedLink out links =
      match links.find? (fun l => qualifies l) with
      | some l => l.Href
      | none => out := by
  induction links with
  | nil => rfl
  | cons l ls ih =>
    unfold feedLink
    by_cases h : qualifies l
    · simp [isPrimary_eq, h]
    · simp [isPrimary_eq, h, ih]

theorem buildItem_Link (pt : String → Time × Option Error) (err : Option Error)
    (e : AtomItem) : (buildItem pt err e).1.Link = lastQualifyingHref e.Links := by
  rw [buildItem_fst]
  simp only [lastQualifyingHref, isPrimary_eq_fun]
  cases (e.Links.filter (fun l => decide (qualifies l))).getLast? <;> rfl

theorem buildItem_Enclosures (pt : String → Time × Option Error) (err : Option Error)
    (e : AtomItem) :
    (buildItem pt err e).1.Enclosures =
      (e.Links.filter (fun l => ¬ qualifies l)).map enclosureOfLink := by
  rw [buildItem_fst]
  simp only [isPrimary_eq_fun, decide_not]
  rfl

theorem processItems_init_Link (pt : String → Time × Option Error) (now : Time)
    (debug : Bool) (doc : AtomFeed) (es : List AtomItem) :
    (processItems pt debug (initState now doc) es).out.Link =
      firstQualifyingHref doc.Link := by
  rw [processItems_init_out]
  simp only [initFeed, Feed.new, feedLink_eq, firstQualifyingHref]

theorem lastQualifyingHref_split (pre post : List AtomLink) (l : AtomLink)
    (hl : qualifies l) (hpost : ∀ p ∈ post, ¬ qualifies p) :
    lastQualifyingHref (pre ++ l :: post) = l.Href := by
  have hnil : post.filter (fun l => decide (qualifies l)) = [] := by
    rw [List.filter_eq_nil_iff]
    intro p hp
    simpa using hpost p hp
  simp [lastQualifyingHref, List.filter_append, List.filter_cons, hl, hnil]

theorem lastQualifyingHref_none (links : List AtomLink)
    (hnone : ∀ p ∈ links, ¬ qualifies p) : lastQualifyingHref links = "" := by
  have hnil : links.filter (fun l => decide (qualifies l)) = [] := by
    rw [List.filter_eq_nil_iff]
    intro p hp
    simpa using hnone p hp
  simp [lastQualifyingHref, hnil]

theorem firstQualifyingHref_split (pre post : List AtomLink) (l : AtomLink)
    (hpre : ∀ p ∈ pre, ¬ qualifies p) (hl : qualifies l) :
    firstQualifyingHref (pre ++ l :: post) = l.Href := by
  induction pre with
  | nil => simp [firstQualifyingHref, hl]
  | cons a pre ih =>
    have ha : ¬ qualifies a := hpre a (List.mem_cons_self _ _)
    have := ih (fun p hp => hpre p (List.mem_cons_of_mem _ hp))
    simpa [firstQualifyingHref, ha] using this

theorem firstQualifyingHref_none (links : List AtomLink)
    (hnone : ∀ p ∈ links, ¬ qualifies p) : firstQualifyingHref links = "" := by
  have hf : links.find? (fun l => decide (qualifies l)) = none := by
    rw [List.find?_eq_none]
    intro p hp
    simpa using hnone p hp
  simp [firstQualifyingHref, hf]

theorem buildItem_congr (pt pt' : String → Time × Option Error)
    (hpt : ∀ s, s ≠ "" → pt' s = pt s) (err : Option Error) (e : AtomItem) :
    buildItem pt' err e = buildItem pt err e := by
  unfold buildItem
  by_cases hd : e.Date = ""
  · simp [hd]
  · simp [hd, hpt e.Date hd]

theorem processItem_congr (pt pt' : String → Time × Option Error)
    (hpt : ∀ s, s ≠ "" → pt' s = pt s) (debug : Bool) :
    processItem pt' debug = processItem pt debug := by
  funext st e
  unfold processItem
  simp only [buildItem_congr pt pt' hpt]

theorem parseAtom_congr (decode : List Nat → Except Error AtomFeed)
    (pt pt' : String → Time × Option Error) (hpt : ∀ s, s ≠ "" → pt' s = pt s)
    (now : Time) (debug : Bool) (data : List Nat) :
    parseAtom decode pt' now debug data = parseAtom decode pt now debug data := by
  unfold parseAtom entryLoop processItems
  rw [processItem_congr pt pt' hpt]

/-! ### Claims -/

/-- C1 (amended). When the decoder succeeds, no two positions of the returned
`Items` hold the same ID; an identifier other than the empty string that two or
more entries carry is the ID of exactly one item, and no item has the empty
string as its ID. -/
theorem parseAtom_item_ids_unique (decode : List Nat → Except Error AtomFeed)
    (pt : String → Time × Option Error) (now : Time) (debug : Bool) (data : List Nat)
    (doc : AtomFeed) (h : decode data = Except.ok doc) :
    ∃ f, (parseAtom decode pt now debug data).feed = some f ∧
      (∀ (i j : Nat) (hi : i < f.Items.length) (hj : j < f.Items.length), i ≠ j →
        (f.Items.get ⟨i, hi⟩).ID ≠ (f.Items.get ⟨j, hj⟩).ID) ∧
      (∀ x, x ≠ "" → 2 ≤ (entryIDs doc).count x → (f.Items.map Item.ID).count x = 1) ∧
      (f.Items.map Item.ID).count "" = 0 := by
  refine ⟨_, (parseAtom_ok decode pt now debug data doc h).1, ?_, ?_, ?_⟩
  · exact ids_ne_of_nodup (processItems_init_ids pt now debug doc doc.Items ▸
      nodup_acceptedFrom_ids ∅ doc.Items)
  · intro x hx hc
    rw [processItems_init_ids]
    apply List.count_eq_one_of_mem (nodup_acceptedFrom_ids ∅ doc.Items)
    rw [mem_acceptedFrom_ids]
    refine ⟨?_, hx⟩
    have : 0 < (entryIDs doc).count x := by omega
    exact List.count_pos_iff.1 this
  · rw [processItems_init_ids, List.count_eq_zero, mem_acceptedFrom_ids]
    simp

/-- C1, instance: in the document with identifiers a, (none), b, a the
identifier a belongs to exactly one item. -/
theorem parseAtom_item_ids_unique_witness :
    sampleDecode mixedEntries [60] = Except.ok mixedEntries ∧
      ∃ f, (parseAtom (sampleDecode mixedEntries) sampleParseTime Time.zero false [60]).feed
          = some f ∧ (f.Items.map Item.ID).count "a" = 1 := by
  refine ⟨rfl, ?_⟩
  obtain ⟨f, hf, _, h2, _⟩ := parseAtom_item_ids_unique (sampleDecode mixedEntries)
    sampleParseTime Time.zero false [60] mixedEntries rfl
  exact ⟨f, hf, h2 "a" (by decide) (by decide)⟩

/-- C1 as stated fails: a document with two entries that carry the same, empty
identifier yields no item with that identifier, not exactly one. -/
theorem parseAtom_two_entries_without_id :
    (entryIDs twoEntriesWithoutID).count "" = 2 ∧
      ∃ f, (parseAtom (sampleDecode twoEntriesWithoutID) sampleParseTime Time.zero false
          [60]).feed = some f ∧ (f.Items.map Item.ID).count "" ≠ 1 :=
  ⟨by decide, _, rfl, by decide⟩

/-- C2. When the decoder succeeds, every item of the returned feed has a
non-empty ID and the keys of `ItemMap` are exactly the IDs of the items; the
same holds of the feed under construction after every number `k` of iterations
of the entry loop, which starts from the empty list and the empty map. -/
theorem parseAtom_itemMap_exact (decode : List Nat → Except Error AtomFeed)
    (pt : String → Time × Option Error) (now : Time) (debug : Bool) (data : List Nat)
    (doc : AtomFeed) (h : decode data = Except.ok doc) :
    (∃ f, (parseAtom decode pt now debug data).feed = some f ∧
      (∀ it ∈ f.Items, it.ID ≠ "") ∧
      (∀ x, x ∈ f.ItemMap ↔ ∃ it ∈ f.Items, it.ID = x)) ∧
    (∀ k : Nat,
      (∀ it ∈ (processItems pt debug (initState now doc) (doc.Items.take k)).out.Items,
        it.ID ≠ "") ∧
      (∀ x, x ∈ (processItems pt debug (initState now doc) (doc.Items.take k)).out.ItemMap ↔
        ∃ it ∈ (processItems pt debug (initState now doc) (doc.Items.take k)).out.Items,
          it.ID = x)) ∧
    (initState now doc).out.Items = [] ∧ (initState now doc).out.ItemMap = ∅ := by
  refine ⟨⟨_, (parseAtom_ok decode pt now debug data doc h).1,
    processItems_init_invariant pt now debug doc doc.Items⟩,
    fun k => processItems_init_invariant pt now debug doc _, rfl, rfl⟩

/-- C2, instance: the document with identifiers a, (none), b, a. -/
theorem parseAtom_itemMap_exact_witness :
    sampleDecode mixedEntries [60] = Except.ok mixedEntries ∧
      ∃ f, (parseAtom (sampleDecode mixedEntries) sampleParseTime Time.zero true [60]).feed
          = some f ∧ (∀ it ∈ f.Items, it.ID ≠ "") ∧
          (∀ x, x ∈ f.ItemMap ↔ ∃ it ∈ f.Items, it.ID = x) :=
  ⟨rfl, (parseAtom_itemMap_exact (sampleDecode mixedEntries) sampleParseTime
    Time.zero true [60] mixedEntries rfl).1⟩

/-- C3. When the decoder succeeds, the IDs of the returned items, in order, are
the identifiers of the entries with the empty ones removed and every repeated
one reduced to its first occurrence; so every non-empty entry identifier is the
ID of an item, and the IDs form a subsequence of the entry identifiers. -/
theorem parseAtom_ids_first_occurrences (decode : List Nat → Except Error AtomFeed)
    (pt : String → Time × Option Error) (now : Time) (debug : Bool) (data : List Nat)
    (doc : AtomFeed) (h : decode data = Except.ok doc) :
    ∃ f, (parseAtom decode pt now debug data).feed = some f ∧
      f.Items.map Item.ID = firstOccurrences ((entryIDs doc).filter (fun x => x ≠ "")) ∧
      (∀ e ∈ doc.Items, e.ID ≠ "" → ∃ it ∈ f.Items, it.ID = e.ID) ∧
      (f.Items.map Item.ID).Sublist (entryIDs doc) := by
  have hids := processItems_init_ids pt now debug doc doc.Items
  refine ⟨_, (parseAtom_ok decode pt now debug data doc h).1, ?_, ?_, ?_⟩
  · rw [hids, acceptedFrom_ids]
    simp [entryIDs]
  · intro e he hne
    have : e.ID ∈ (processItems pt debug (initState now doc) doc.Items).out.Items.map
        Item.ID := by
      rw [hids, mem_acceptedFrom_ids]
      exact ⟨List.mem_map_of_mem _ he, hne⟩
    obtain ⟨it, hit, hid⟩ := List.mem_map.1 this
    exact ⟨it, hit, hid⟩
  · rw [hids]
    exact (acceptedFrom_sublist ∅ doc.Items).map _

/-- C3, instance: identifiers a, (none), b, a give the items a, b. -/
theorem parseAtom_ids_first_occurrences_witness :
    sampleDecode mixedEntries [60] = Except.ok mixedEntries ∧
      firstOccurrences ((entryIDs mixedEntries).filter (fun x => x ≠ "")) = ["a", "b"] ∧
      ∃ f, (parseAtom (sampleDecode mixedEntries) sampleParseTime Time.zero false [60]).feed
          = some f ∧ f.Items.map Item.ID = ["a", "b"] := by
  refine ⟨rfl, by decide, ?_⟩
  obtain ⟨f, hf, h1, _⟩ := parseAtom_ids_first_occurrences (sampleDecode mixedEntries)
    sampleParseTime Time.zero false [60] mixedEntries rfl
  exact ⟨f, hf, h1.trans (by decide)⟩

/-- C4. When the decoder succeeds, every item of the returned feed has the
title, summary and raw content of the first entry of the document that carries
the item's ID, and its `Read` flag is false. -/
theorem parseAtom_first_seen_wins (decode : List Nat → Except Error AtomFeed)
    (pt : String → Time × Option Error) (now : Time) (debug : Bool) (data : List Nat)
    (doc : AtomFeed) (h : decode data = Except.ok doc) :
    ∃ f, (parseAtom decode pt now debug data).feed = some f ∧
      ∀ it ∈ f.Items, ∃ e, firstEntryWithID doc.Items it.ID = some e ∧
        it.Title = e.Title ∧ it.Summary = e.Summary ∧
        it.Content = e.Content.RAWContent ∧ it.Read = false := by
  refine ⟨_, (parseAtom_ok decode pt now debug data doc h).1, ?_⟩
  intro it hit
  obtain ⟨e, he, rfl⟩ := processItems_init_source pt now debug doc doc.Items it hit
  refine ⟨e, he, ?_⟩
  rw [buildItem_fst]
  exact ⟨rfl, rfl, rfl, rfl⟩

/-- C4, instance: with identifiers a, (none), b, a the titles are those of the
first and the third entry; the fourth entry leaves no trace. -/
theorem parseAtom_first_seen_wins_witness :
    sampleDecode mixedEntries [60] = Except.ok mixedEntries ∧
      (∃ f, (parseAtom (sampleDecode mixedEntries) sampleParseTime Time.zero false
          [60]).feed = some f ∧
        ∀ it ∈ f.Items, ∃ e, firstEntryWithID mixedEntries.Items it.ID = some e ∧
          it.Title = e.Title ∧ it.Summary = e.Summary ∧
          it.Content = e.Content.RAWContent ∧ it.Read = false) ∧
      (parseAtom (sampleDecode mixedEntries) sampleParseTime Time.zero false [60]).feed.map
        (fun f => f.Items.map Item.Title) = some ["first", "third"] :=
  ⟨rfl, parseAtom_first_seen_wins (sampleDecode mixedEntries) sampleParseTime Time.zero
    false [60] mixedEntries rfl, by decide⟩

/-- C5. An entry whose identifier is empty leaves the feed under construction
unchanged in every state of the loop, no returned item has the empty ID, and
the document with all such entries deleted yields the same `Items`, `ItemMap`
and `Unread`. -/
theorem parseAtom_empty_ids_ignored (decode : List Nat → Except Error AtomFeed)
    (pt : String → Time × Option Error) (now : Time) (debug : Bool)
    (data data' : List Nat) (doc : AtomFeed) (h : decode data = Except.ok doc)
    (h' : decode data' =
      Except.ok { doc with Items := doc.Items.filter (fun e => e.ID ≠ "") }) :
    (∀ (st : LoopState) (e : AtomItem), e.ID = "" →
      (processItem pt debug st e).out = st.out) ∧
    ∃ f f', (parseAtom decode pt now debug data).feed = some f ∧
      (parseAtom decode pt now debug data').feed = some f' ∧
      (∀ it ∈ f.Items, it.ID ≠ "") ∧
      f'.Items = f.Items ∧ f'.ItemMap = f.ItemMap ∧ f'.Unread = f.Unread := by
  refine ⟨fun st e he => processItem_empty_id pt debug st e he, _, _,
    (parseAtom_ok decode pt now debug data doc h).1,
    (parseAtom_ok decode pt now debug data' _ h').1,
    (processItems_init_invariant pt now debug doc doc.Items).1, ?_, ?_, ?_⟩ <;>
  · rw [processItems_init_out, processItems_init_out]
    simp only [acceptedFrom_filter_nonempty]

/-- C5, instance: identifiers a, (none), b, a against a, b, a. -/
theorem parseAtom_empty_ids_ignored_witness :
    sampleDecodeTwo mixedEntries
        { mixedEntries with Items := mixedEntries.Items.filter (fun e => e.ID ≠ "") } [60]
      = Except.ok mixedEntries ∧
    sampleDecodeTwo mixedEntries
        { mixedEntries with Items := mixedEntries.Items.filter (fun e => e.ID ≠ "") } [62]
      = Except.ok { mixedEntries with
          Items := mixedEntries.Items.filter (fun e => e.ID ≠ "") } ∧
    ∃ f f', (parseAtom (sampleDecodeTwo mixedEntries
        { mixedEntries with Items := mixedEntries.Items.filter (fun e => e.ID ≠ "") })
        sampleParseTime Time.zero false [60]).feed = some f ∧
      (parseAtom (sampleDecodeTwo mixedEntries
        { mixedEntries with Items := mixedEntries.Items.filter (fun e => e.ID ≠ "") })
        sampleParseTime Time.zero false [62]).feed = some f' ∧
      (∀ it ∈ f.Items, it.ID ≠ "") ∧
      f'.Items = f.Items ∧ f'.ItemMap = f.ItemMap ∧ f'.Unread = f.Unread :=
  ⟨rfl, rfl, (parseAtom_empty_ids_ignored _ sampleParseTime Time.zero false [60] [62]
    mixedEntries rfl rfl).2⟩

/-- C6. When the decoder succeeds, `Unread` is the length of `Items`, which is
the number of distinct non-empty identifiers among the entries and at most the
number of entries. -/
theorem parseAtom_unread_count (decode : List Nat → Except Error AtomFeed)
    (pt : String → Time × Option Error) (now : Time) (debug : Bool) (data : List Nat)
    (doc : AtomFeed) (h : decode data = Except.ok doc) :
    ∃ f, (parseAtom decode pt now debug data).feed = some f ∧
      f.Unread = f.Items.length ∧
      f.Items.length = ((entryIDs doc).filter (fun x => x ≠ "")).toFinset.card ∧
      f.Unread ≤ doc.Items.length := by
  refine ⟨_, (parseAtom_ok decode pt now debug data doc h).1, ?_, ?_, ?_⟩
  · rw [processItems_init_out]
    simp
  · rw [processItems_init_out, entryIDs, ← toFinset_acceptedFrom_ids,
      List.toFinset_card_of_nodup (nodup_acceptedFrom_ids ∅ doc.Items)]
    simp
  · rw [processItems_init_out]
    exact (acceptedFrom_sublist ∅ doc.Items).length_le

/-- C6, instance: identifiers a, (none), b, a give two unread items. -/
theorem parseAtom_unread_count_witness :
    sampleDecode mixedEntries [60] = Except.ok mixedEntries ∧
      ((entryIDs mixedEntries).filter (fun x => x ≠ "")).toFinset.card = 2 ∧
      ∃ f, (parseAtom (sampleDecode mixedEntries) sampleParseTime Time.zero false [60]).feed
          = some f ∧ f.Unread = 2 ∧ f.Items.length = 2 := by
  refine ⟨rfl, by decide, ?_⟩
  obtain ⟨f, hf, h1, h2, _⟩ := parseAtom_unread_count (sampleDecode mixedEntries)
    sampleParseTime Time.zero false [60] mixedEntries rfl
  have h3 : f.Items.length = 2 := h2.trans (by decide)
  exact ⟨f, hf, h1.trans h3, h3⟩

/-- C7. When the decoder succeeds, the `Link` of every returned item is the
href of the last link of its source entry whose relation is "alternate" or
empty, and the empty string when the entry has no such link; with exactly two
"alternate" links the second one is taken. -/
theorem parseAtom_item_link_last_wins (decode : List Nat → Except Error AtomFeed)
    (pt : String → Time × Option Error) (now : Time) (debug : Bool) (data : List Nat)
    (doc : AtomFeed) (h : decode data = Except.ok doc) :
    ∃ f, (parseAtom decode pt now debug data).feed = some f ∧
      ∀ it ∈ f.Items, ∃ e, firstEntryWithID doc.Items it.ID = some e ∧
        it.Link = lastQualifyingHref e.Links ∧
        (∀ (pre post : List AtomLink) (l : AtomLink), e.Links = pre ++ l :: post →
          (l.Rel = "alternate" ∨ l.Rel = "") →
          (∀ p ∈ post, ¬ (p.Rel = "alternate" ∨ p.Rel = "")) → it.Link = l.Href) ∧
        ((∀ p ∈ e.Links, ¬ (p.Rel = "alternate" ∨ p.Rel = "")) → it.Link = "") ∧
        (∀ l1 l2 : AtomLink, e.Links = [l1, l2] → l1.Rel = "alternate" →
          l2.Rel = "alternate" → it.Link = l2.Href) := by
  refine ⟨_, (parseAtom_ok decode pt now debug data doc h).1, ?_⟩
  intro it hit
  obtain ⟨e, he, rfl⟩ := processItems_init_source pt now debug doc doc.Items it hit
  refine ⟨e, he, buildItem_Link pt none e, ?_, ?_, ?_⟩
  · intro pre post l hl hq hpost
    rw [buildItem_Link, hl]
    exact lastQualifyingHref_split pre post l hq hpost
  · intro hnone
    rw [buildItem_Link]
    exact lastQualifyingHref_none _ hnone
  · intro l1 l2 hl h1 h2
    rw [buildItem_Link, hl]
    exact lastQualifyingHref_split [l1] [] l2 (Or.inl h2) (by simp)

/-- C7, instance: links alternate A, enclosure X, alternate B, enclosure Y give
the item link B. -/
theorem parseAtom_item_link_last_wins_witness :
    sampleDecode linkedEntries [60] = Except.ok linkedEntries ∧
      ∃ f, (parseAtom (sampleDecode linkedEntries) sampleParseTime Time.zero false
          [60]).feed = some f ∧
        ∀ it ∈ f.Items, ∃ e, firstEntryWithID linkedEntries.Items it.ID = some e ∧
          it.Link = lastQualifyingHref e.Links := by
  refine ⟨rfl, ?_⟩
  obtain ⟨f, hf, hall⟩ := parseAtom_item_link_last_wins (sampleDecode linkedEntries)
    sampleParseTime Time.zero false [60] linkedEntries rfl
  refine ⟨f, hf, fun it hit => ?_⟩
  obtain ⟨e, he, hl, _⟩ := hall it hit
  exact ⟨e, he, hl⟩

/-- C8. When the decoder succeeds, `Feed.Link` is the href of the first link of
the document whose relation is "alternate" or empty, whatever follows it, and
the empty string when no link qualifies; the returned error is nil. -/
theorem parseAtom_feed_link_first_wins (decode : List Nat → Except Error AtomFeed)
    (pt : String → Time × Option Error) (now : Time) (debug : Bool) (data : List Nat)
    (doc : AtomFeed) (h : decode data = Except.ok doc) :
    (parseAtom decode pt now debug data).err = none ∧
    ∃ f, (parseAtom decode pt now debug data).feed = some f ∧
      f.Link = firstQualifyingHref doc.Link ∧
      (∀ (pre post : List AtomLink) (l : AtomLink), doc.Link = pre ++ l :: post →
        (∀ p ∈ pre, ¬ (p.Rel = "alternate" ∨ p.Rel = "")) →
        (l.Rel = "alternate" ∨ l.Rel = "") → f.Link = l.Href) ∧
      ((∀ p ∈ doc.Link, ¬ (p.Rel = "alternate" ∨ p.Rel = "")) → f.Link = "") := by
  refine ⟨(parseAtom_ok decode pt now debug data doc h).2, _,
    (parseAtom_ok decode pt now debug data doc h).1,
    processItems_init_Link pt now debug doc doc.Items, ?_, ?_⟩
  · intro pre post l hl hpre hq
    rw [processItems_init_Link, hl]
    exact firstQualifyingHref_split pre post l hpre hq
  · intro hnone
    rw [processItems_init_Link]
    exact firstQualifyingHref_none _ hnone

/-- C8, instance: feed links enclosure E, alternate A, (no relation) B give the
feed link A. -/
theorem parseAtom_feed_link_first_wins_witness :
    sampleDecode linkedEntries [60] = Except.ok linkedEntries ∧
      ∃ f, (parseAtom (sampleDecode linkedEntries) sampleParseTime Time.zero false
          [60]).feed = some f ∧ f.Link = "A" := by
  refine ⟨rfl, ?_⟩
  obtain ⟨_, f, hf, _, h2, _⟩ := parseAtom_feed_link_first_wins
    (sampleDecode linkedEntries) sampleParseTime Time.zero false [60] linkedEntries rfl
  exact ⟨f, hf, h2 [sampleLink "enclosure" "E"] [sampleLink "" "B"]
    (sampleLink "alternate" "A") rfl (by decide) (by decide)⟩

/-- C9. When the decoder succeeds, the enclosures of every returned item are,
in order, the links of its source entry whose relation is neither "alternate"
nor empty, each with its href, media type and length unchanged; enclosures and
qualifying links together count the links of the entry, and one "alternate"
link with two "enclosure" links gives exactly the two enclosures in order. -/
theorem parseAtom_enclosures_preserved (decode : List Nat → Except Error AtomFeed)
    (pt : String → Time × Option Error) (now : Time) (debug : Bool) (data : List Nat)
    (doc : AtomFeed) (h : decode data = Except.ok doc) :
    ∃ f, (parseAtom decode pt now debug data).feed = some f ∧
      ∀ it ∈ f.Items, ∃ e, firstEntryWithID doc.Items it.ID = some e ∧
        it.Enclosures =
          (e.Links.filter (fun l => ¬ (l.Rel = "alternate" ∨ l.Rel = ""))).map
            (fun l => { URL := l.Href, Type_ := l.Type_, Length := l.Length }) ∧
        it.Enclosures.length +
            (e.Links.filter (fun l => l.Rel = "alternate" ∨ l.Rel = "")).length =
          e.Links.length ∧
        (∀ a x y : AtomLink, a.Rel = "alternate" → x.Rel = "enclosure" →
          y.Rel = "enclosure" →
          (e.Links = [a, x, y] ∨ e.Links = [x, a, y] ∨ e.Links = [x, y, a]) →
          it.Enclosures = [enclosureOfLink x, enclosureOfLink y]) := by
  refine ⟨_, (parseAtom_ok decode pt now debug data doc h).1, ?_⟩
  intro it hit
  obtain ⟨e, he, rfl⟩ := processItems_init_source pt now debug doc doc.Items it hit
  have henc := buildItem_Enclosures pt none e
  refine ⟨e, he, henc, ?_, ?_⟩
  · rw [henc, List.length_map]
    have := List.length_eq_length_filter_add (l := e.Links)
      (fun l => decide (l.Rel = "alternate" ∨ l.Rel = ""))
    simp only [qualifies, decide_not] at this ⊢
    omega
  · intro a x y ha hx hy hl
    rw [henc]
    rcases hl with hl | hl | hl <;> rw [hl] <;>
      simp [List.filter_cons, qualifies, ha, hx, hy]

/-- C9, instance: links alternate A, enclosure X, alternate B, enclosure Y give
the enclosures X, Y. -/
theorem parseAtom_enclosures_preserved_witness :
    sampleDecode linkedEntries [60] = Except.ok linkedEntries ∧
      (∃ f, (parseAtom (sampleDecode linkedEntries) sampleParseTime Time.zero false
          [60]).feed = some f ∧
        ∀ it ∈ f.Items, ∃ e, firstEntryWithID linkedEntries.Items it.ID = some e ∧
          it.Enclosures.length +
              (e.Links.filter (fun l => l.Rel = "alternate" ∨ l.Rel = "")).length =
            e.Links.length) ∧
      (parseAtom (sampleDecode linkedEntries) sampleParseTime Time.zero false [60]).feed.map
          (fun f => f.Items.map Item.Enclosures) =
        some [[⟨"X", "audio/mpeg", 7⟩, ⟨"Y", "audio/mpeg", 7⟩]] := by
  refine ⟨rfl, ?_, by decide⟩
  obtain ⟨f, hf, hall⟩ := parseAtom_enclosures_preserved (sampleDecode linkedEntries)
    sampleParseTime Time.zero false [60] linkedEntries rfl
  refine ⟨f, hf, fun it hit => ?_⟩
  obtain ⟨e, he, _, hl, _⟩ := hall it hit
  exact ⟨e, he, hl⟩

/-- C10. When the decoder succeeds, `DateValid` of every returned item is true
exactly when the date string of its source entry is non-empty and `parseTime`
returns it without error; a valid date is the value `parseTime` returned; an
empty date string leaves `Date` at the zero value, and `parseTime` is not
consulted on it: changing `parseTime` on the empty string changes nothing. -/
theorem parseAtom_date_valid (decode : List Nat → Except Error AtomFeed)
    (pt : String → Time × Option Error) (now : Time) (debug : Bool) (data : List Nat)
    (doc : AtomFeed) (h : decode data = Except.ok doc) :
    (∃ f, (parseAtom decode pt now debug data).feed = some f ∧
      ∀ it ∈ f.Items, ∃ e, firstEntryWithID doc.Items it.ID = some e ∧
        (it.DateValid = true ↔ e.Date ≠ "" ∧ (pt e.Date).2 = none) ∧
        (it.DateValid = true → it.Date = (pt e.Date).1) ∧
        (e.Date = "" → it.Date = Time.zero)) ∧
    (∀ pt' : String → Time × Option Error, (∀ s, s ≠ "" → pt' s = pt s) →
      parseAtom decode pt' now debug data = parseAtom decode pt now debug data) := by
  refine ⟨⟨_, (parseAtom_ok decode pt now debug data doc h).1, ?_⟩,
    fun pt' hpt => parseAtom_congr decode pt pt' hpt now debug data⟩
  intro it hit
  obtain ⟨e, he, rfl⟩ := processItems_init_source pt now debug doc doc.Items it hit
  refine ⟨e, he, ?_⟩
  rw [buildItem_fst]
  refine ⟨by simp, ?_, ?_⟩
  · intro hv
    have hne : e.Date ≠ "" := by
      have : e.Date ≠ "" ∧ (pt e.Date).2 = none := by simpa using hv
      exact this.1
    simp [hne]
  · intro hd
    simp [hd]

/-- C10, instance: of the entries with an accepted, an empty and a rejected
date string only the first yields a valid date. -/
theorem parseAtom_date_valid_witness :
    sampleDecode datedEntries [60] = Except.ok datedEntries ∧
      (∃ f, (parseAtom (sampleDecode datedEntries) sampleParseTime Time.zero false
          [60]).feed = some f ∧
        ∀ it ∈ f.Items, ∃ e, firstEntryWithID datedEntries.Items it.ID = some e ∧
          (it.DateValid = true ↔ e.Date ≠ "" ∧ (sampleParseTime e.Date).2 = none) ∧
          (it.DateValid = true → it.Date = (sampleParseTime e.Date).1) ∧
          (e.Date = "" → it.Date = Time.zero)) ∧
      (parseAtom (sampleDecode datedEntries) sampleParseTime Time.zero false [60]).feed.map
          (fun f => f.Items.map Item.DateValid) = some [true, false, false] :=
  ⟨rfl, (parseAtom_date_valid (sampleDecode datedEntries) sampleParseTime Time.zero
    false [60] datedEntries rfl).1, by decide⟩

/-! ### Entries appended to a document -/

theorem acceptedFrom_append (seen : Finset String) (es es' : List AtomItem) :
    acceptedFrom seen (es ++ es') =
      acceptedFrom seen es ++
        acceptedFrom (seen ∪ ((acceptedFrom seen es).map AtomItem.ID).toFinset) es' := by
  induction es generalizing seen with
  | nil => simp [acceptedFrom]
  | cons a es ih =>
    by_cases h : a.ID ∈ seen ∨ a.ID = ""
    · simp only [List.cons_append, acceptedFrom, h, if_true]
      exact ih seen
    · simp only [List.cons_append, acceptedFrom, h, if_false, List.map_cons,
        List.toFinset_cons, Finset.union_insert]
      rw [show es.append es' = es ++ es' from rfl, ih (insert a.ID seen),
        Finset.insert_union]

theorem acceptedFrom_eq_nil (seen : Finset String) (es : List AtomItem)
    (h : ∀ e ∈ es, e.ID ∈ seen ∨ e.ID = "") : acceptedFrom seen es = [] := by
  induction es with
  | nil => rfl
  | cons a es ih =>
    unfold acceptedFrom
    rw [if_pos (h a (List.mem_cons_self _ _))]
    exact ih (fun e he => h e (List.mem_cons_of_mem _ he))

theorem acceptedFrom_eq_self (seen : Finset String) (es : List AtomItem)
    (hne : ∀ e ∈ es, e.ID ≠ "") (hseen : ∀ e ∈ es, e.ID ∉ seen)
    (hnd : (es.map AtomItem.ID).Nodup) : acceptedFrom seen es = es := by
  induction es generalizing seen with
  | nil => rfl
  | cons a es ih =>
    have ha : ¬ (a.ID ∈ seen ∨ a.ID = "") := by
      rw [not_or]
      exact ⟨hseen a (List.mem_cons_self _ _), hne a (List.mem_cons_self _ _)⟩
    rw [List.map_cons, List.nodup_cons] at hnd
    unfold acceptedFrom
    rw [if_neg ha, ih (insert a.ID seen) (fun e he => hne e (List.mem_cons_of_mem _ he))
      ?_ hnd.2]
    intro e he hmem
    rcases Finset.mem_insert.1 hmem with heq | hmem
    · exact hnd.1 (heq ▸ List.mem_map_of_mem _ he)
    · exact hseen e (List.mem_cons_of_mem _ he) hmem

/-- The feed after `pre` is not affected by what follows, and an entry with a
fresh non-empty identifier is accepted by the next pass of the loop body. -/
theorem processItem_fresh (pt : String → Time × Option Error) (now : Time)
    (debug : Bool) (doc : AtomFeed) (pre : List AtomItem) (e : AtomItem)
    (hne : e.ID ≠ "") (hpre : ∀ p ∈ pre, p.ID ≠ e.ID) :
    (processItem pt debug (processItems pt debug (initState now doc) pre) e).out =
      { (processItems pt debug (initState now doc) pre).out with
        Items := (processItems pt debug (initState now doc) pre).out.Items ++
          [(buildItem pt none e).1]
        ItemMap := insert e.ID (processItems pt debug (initState now doc) pre).out.ItemMap
        Unread := (processItems pt debug (initState now doc) pre).out.Unread + 1 } := by
  rw [processItem_out]
  have hnot : ¬ (e.ID ∈ (processItems pt debug (initState now doc) pre).out.ItemMap ∨
      e.ID = "") := by
    rw [not_or]
    refine ⟨?_, hne⟩
    rw [processItems_init_out]
    simp only [List.mem_toFinset, List.mem_map, not_exists, not_and]
    intro p hp
    exact hpre p (mem_acceptedFrom hp).1
  rw [if_neg hnot]

theorem mem_acceptedFrom_fresh (pre post : List AtomItem) (e : AtomItem)
    (hne : e.ID ≠ "") (hpre : ∀ p ∈ pre, p.ID ≠ e.ID) :
    e ∈ acceptedFrom ∅ (pre ++ e :: post) := by
  rw [acceptedFrom_append]
  apply List.mem_append_right
  have hnot : ¬ (e.ID ∈ ∅ ∪ ((acceptedFrom ∅ pre).map AtomItem.ID).toFinset ∨ e.ID = "") := by
    rw [not_or]
    refine ⟨?_, hne⟩
    simp only [Finset.empty_union, List.mem_toFinset, List.mem_map, not_exists, not_and]
    intro p hp
    exact hpre p (mem_acceptedFrom hp).1
  unfold acceptedFrom
  rw [if_neg hnot]
  exact List.mem_cons_self _ _

/-! ### Claims, continued -/

/-- C11 (amended). When the decoder succeeds, an entry with a non-empty
identifier that no earlier entry carries, whose non-empty date string
`parseTime` rejects, is accepted: the pass of the loop body over it appends its
item and adds one to `Unread`, and the returned feed holds the item, with
`DateValid` false and with `Date` the value `parseTime` returned alongside its
error, hence the zero value whenever `parseTime` returned the zero value. -/
theorem parseAtom_date_fallback (decode : List Nat → Except Error AtomFeed)
    (pt : String → Time × Option Error) (now : Time) (debug : Bool) (data : List Nat)
    (doc : AtomFeed) (pre post : List AtomItem) (e : AtomItem)
    (h : decode data = Except.ok doc) (hdoc : doc.Items = pre ++ e :: post)
    (hid : e.ID ≠ "") (hfresh : ∀ p ∈ pre, p.ID ≠ e.ID) (hdate : e.Date ≠ "")
    (hrej : (pt e.Date).2 ≠ none) :
    ∃ f it, (parseAtom decode pt now debug data).feed = some f ∧
      (processItem pt debug (processItems pt debug (initState now doc) pre) e).out.Items =
        (processItems pt debug (initState now doc) pre).out.Items ++ [it] ∧
      (processItem pt debug (processItems pt debug (initState now doc) pre) e).out.Unread =
        (processItems pt debug (initState now doc) pre).out.Unread + 1 ∧
      it ∈ f.Items ∧ f.Unread = f.Items.length ∧
      it.ID = e.ID ∧ it.Title = e.Title ∧ it.DateValid = false ∧
      it.Date = (pt e.Date).1 ∧ ((pt e.Date).1 = Time.zero → it.Date = Time.zero) := by
  have hstep := processItem_fresh pt now debug doc pre e hid hfresh
  refine ⟨_, (buildItem pt none e).1, (parseAtom_ok decode pt now debug data doc h).1,
    by rw [hstep], by rw [hstep], ?_, ?_, ?_⟩
  · rw [processItems_init_out, hdoc]
    exact List.mem_map_of_mem _ (mem_acceptedFrom_fresh pre post e hid hfresh)
  · rw [processItems_init_out]
    simp
  · rw [buildItem_fst]
    simp [hdate, hrej]

/-- C11, instance: the entry c with the rejected date string "yesterday". -/
theorem parseAtom_date_fallback_witness :
    ∃ f it, (parseAtom (sampleDecode datedEntries) sampleParseTime Time.zero false
        [60]).feed = some f ∧ it ∈ f.Items ∧ f.Unread = f.Items.length ∧
      it.ID = "c" ∧ it.DateValid = false ∧ it.Date = Time.zero := by
  obtain ⟨f, it, hf, _, _, hit, hu, hid, _, hv, _, hz⟩ :=
    parseAtom_date_fallback (sampleDecode datedEntries) sampleParseTime Time.zero false
      [60] datedEntries
      [sampleEntry "a" "first" "2024-01-01T00:00:00Z" [], sampleEntry "b" "second" "" []]
      [] (sampleEntry "c" "third" "yesterday" []) rfl rfl (by decide) (by decide)
      (by decide) (by decide)
  exact ⟨f, it, hf, hit, hu, hid, hv, hz rfl⟩

/-- C11 as stated fails: when `parseTime` hands back a non-zero instant together
with its error, the accepted item carries that instant, not the zero value. -/
theorem parseAtom_date_kept_on_error :
    (rejectingParseTime "yesterday").2 ≠ none ∧
      (parseAtom (sampleDecode undatedEntry) rejectingParseTime Time.zero false
          [60]).feed.map (fun f => f.Items.map (fun it => (it.ID, it.DateValid, it.Date))) =
        some [("c", false, ⟨5⟩)] ∧
      (⟨5⟩ : Time) ≠ Time.zero := by
  decide

/-- C12. `parseAtom` returns a non-nil error exactly when the decoder fails; the
feed is then nil and the error is the decoder's. When the decoder succeeds the
feed is non-nil and the error is nil, whatever the entries and `parseTime`. -/
theorem parseAtom_error_iff_decoder_fails (decode : List Nat → Except Error AtomFeed)
    (pt : String → Time × Option Error) (now : Time) (debug : Bool) (data : List Nat) :
    ((parseAtom decode pt now debug data).err ≠ none ↔
      ∃ e, decode data = Except.error e) ∧
    (∀ e, decode data = Except.error e →
      (parseAtom decode pt now debug data).feed = none ∧
      (parseAtom decode pt now debug data).err = some e) ∧
    (∀ doc, decode data = Except.ok doc →
      (∃ f, (parseAtom decode pt now debug data).feed = some f) ∧
      (parseAtom decode pt now debug data).err = none) := by
  refine ⟨?_, ?_, ?_⟩
  · cases hd : decode data with
    | error e => simp [parseAtom, hd]
    | ok doc => simp [parseAtom, hd]
  · intro e hd
    simp [parseAtom, hd]
  · intro doc hd
    simp [parseAtom, hd]

/-- C12, instance: the empty buffer gives the decoder's error and no feed; a
document with a rejected date leaves an error in the shared variable `err` of
the loop, and the returned error is nil all the same. -/
theorem parseAtom_error_iff_decoder_fails_witness :
    ((parseAtom (sampleDecode datedEntries) sampleParseTime Time.zero false []).feed = none ∧
      (parseAtom (sampleDecode datedEntries) sampleParseTime Time.zero false []).err =
        some ⟨"EOF"⟩) ∧
    (entryLoop sampleParseTime Time.zero false datedEntries).err = some ⟨"cannot parse"⟩ ∧
    (parseAtom (sampleDecode datedEntries) sampleParseTime Time.zero false [60]).err = none :=
  ⟨(parseAtom_error_iff_decoder_fails (sampleDecode datedEntries) sampleParseTime Time.zero
      false []).2.1 ⟨"EOF"⟩ rfl, by decide,
    ((parseAtom_error_iff_decoder_fails (sampleDecode datedEntries) sampleParseTime
      Time.zero false [60]).2.2 datedEntries rfl).2⟩

/-! ### Author and image -/

theorem toUint32_lt (x : Int) : toUint32 x < 2 ^ 32 := by
  unfold toUint32
  have h1 : 0 ≤ x % (2 ^ 32 : Int) := Int.emod_nonneg _ (by norm_num)
  have h2 : x % (2 ^ 32 : Int) < 2 ^ 32 := Int.emod_lt_of_pos _ (by norm_num)
  omega

theorem toUint32_cast (x : Int) : (toUint32 x : Int) = x % 2 ^ 32 := by
  unfold toUint32
  exact Int.toNat_of_nonneg (Int.emod_nonneg _ (by norm_num))

theorem toUint32_of_range (x : Int) (h0 : 0 ≤ x) (h1 : x < 2 ^ 32) :
    (toUint32 x : Int) = x := by
  rw [toUint32_cast]
  exact Int.emod_eq_of_lt h0 h1

theorem toUint32_eq_iff (x : Int) : (toUint32 x : Int) = x ↔ 0 ≤ x ∧ x < 2 ^ 32 := by
  constructor
  · intro h
    have := toUint32_lt x
    omega
  · rintro ⟨h0, h1⟩
    exact toUint32_of_range x h0 h1

theorem foldl_authorStep (exts : List AtomLink) (acc : List Link) :
    exts.foldl authorStep acc = acc ++ exts.map linkOfAtomLink := by
  induction exts generalizing acc with
  | nil => simp
  | cons x xs ih =>
    rw [List.foldl_cons, ih]
    simp [authorStep, linkOfAtomLink]

theorem set_length_append (cells : List Link) (c c' : Link) :
    (cells ++ [c]).set cells.length c' = cells ++ [c'] := by
  induction cells with
  | nil => rfl
  | cons a as ih => simp [List.set, ih]

theorem getD_length_append (cells : List Link) (c d : Link) :
    (cells ++ [c]).getD cells.length d = c := by
  induction cells with
  | nil => rfl
  | cons a as ih => simp [List.getD]

theorem authorStepMem_eq (m : AuthorMem) (ext : AtomLink) :
    authorStepMem m ext =
      { cells := m.cells ++ [linkOfAtomLink ext], l := some m.cells.length,
        e := m.e ++ [some m.cells.length] } := by
  simp [authorStepMem, AuthorMem.alloc, AuthorMem.store, set_length_append,
    getD_length_append, Link.new, linkOfAtomLink]

theorem foldl_authorStepMem (exts : List AtomLink) (m : AuthorMem) :
    exts.foldl authorStepMem m =
      { cells := m.cells ++ exts.map linkOfAtomLink,
        l := if exts = [] then m.l else some (m.cells.length + exts.length - 1),
        e := m.e ++ (List.range exts.length).map (fun i => some (m.cells.length + i)) } := by
  induction exts generalizing m with
  | nil => simp
  | cons x xs ih =>
    rw [List.foldl_cons, ih, authorStepMem_eq]
    simp only [List.length_append, List.length_singleton, List.length_cons, List.map_cons,
      List.append_assoc, List.singleton_append, List.range_succ_eq_map, List.map_map]
    congr 1
    · by_cases hx : xs = []
      · simp [hx]
      · simp [hx]
    · simp [Function.comp_def, Nat.add_assoc, Nat.add_comm 1]

theorem authorMem_eq (a : AtomAuthor) :
    a.authorMem =
      { cells := Link.new :: a.Extensions.map linkOfAtomLink,
        l := if a.Extensions = [] then some 0 else some (1 + a.Extensions.length - 1),
        e := (List.range a.Extensions.length).map (fun i => some (1 + i)) } := by
  unfold AtomAuthor.authorMem
  rw [foldl_authorStepMem]
  simp [AuthorMem.alloc]

theorem deref_authorMem (a : AtomAuthor) :
    a.authorMem.e.map (deref a.authorMem.cells) =
      (a.Extensions.map linkOfAtomLink).map some := by
  rw [authorMem_eq]
  apply List.ext_getElem
  · simp
  · intro i h1 h2
    simp at h1
    simp [deref, Nat.add_comm 1, h1]

theorem nodup_authorMem (a : AtomAuthor) : a.authorMem.e.Nodup := by
  rw [authorMem_eq]
  refine List.Nodup.map ?_ (List.nodup_range _)
  intro i j hij
  simpa using hij

/-- C13 (amended). `Image()` copies `Title` and `URL`; `Height` and `Width`
are the source's integers reduced modulo `2 ^ 32`, and each equals the source's
value exactly when that value lies between 0 and `2 ^ 32 - 1`. -/
theorem image_fields (a : AtomImage) :
    a.Image.Title = a.Title ∧ a.Image.URL = a.URL ∧
    a.Image.Height < 2 ^ 32 ∧ a.Image.Width < 2 ^ 32 ∧
    (a.Image.Height : Int) = a.Height % 2 ^ 32 ∧
    (a.Image.Width : Int) = a.Width % 2 ^ 32 ∧
    ((a.Image.Height : Int) = a.Height ↔ 0 ≤ a.Height ∧ a.Height < 2 ^ 32) ∧
    ((a.Image.Width : Int) = a.Width ↔ 0 ≤ a.Width ∧ a.Width < 2 ^ 32) :=
  ⟨rfl, rfl, toUint32_lt _, toUint32_lt _, toUint32_cast _, toUint32_cast _,
    toUint32_eq_iff _, toUint32_eq_iff _⟩

/-- C13 as stated fails: the height -1 becomes 4294967295 and the width
4294967296 becomes 0. -/
theorem image_conversion_wraps :
    (oddImage.Image.Height : Int) ≠ oddImage.Height ∧
      (oddImage.Image.Width : Int) ≠ oddImage.Width ∧
      oddImage.Image.Height = 4294967295 ∧ oddImage.Image.Width = 0 := by
  decide

/-- C14. `Author()` copies `Name`, `URI` and `Email`; `Extensions` has the
length of the source's extension links, its k-th link carries the `Href`, `Rel`
and `Type` of the k-th source link, and it is empty for an author without
extension links. On the level of pointers, the cells the pointers of `e` point
to hold these same links and no two pointers of `e` are the same, so that no
link is overwritten through the reused variable `l`. -/
theorem author_fields (a : AtomAuthor) :
    a.Author.Name = a.Name ∧ a.Author.URI = a.URI ∧ a.Author.Email = a.Email ∧
    a.Author.Extensions.length = a.Extensions.length ∧
    (∀ (k : Nat) (ext : AtomLink), a.Extensions[k]? = some ext →
      ∃ l, a.Author.Extensions[k]? = some l ∧
        l.Href = ext.Href ∧ l.Rel = ext.Rel ∧ l.Type_ = ext.Type_) ∧
    (a.Extensions = [] → a.Author.Extensions = []) ∧
    a.authorMem.e.map (deref a.authorMem.cells) = a.Author.Extensions.map some ∧
    a.authorMem.e.Nodup := by
  have hext : a.Author.Extensions = a.Extensions.map linkOfAtomLink := by
    simp [AtomAuthor.Author, foldl_authorStep]
  refine ⟨rfl, rfl, rfl, by simp [hext], ?_, ?_, ?_, nodup_authorMem a⟩
  · intro k ext hk
    refine ⟨linkOfAtomLink ext, ?_, rfl, rfl, rfl⟩
    rw [hext, List.getElem?_map, hk]
    rfl
  · intro hnil
    simp [hext, hnil]
  · rw [hext]
    exact deref_authorMem a

/-! ### Warnings, output and the second duplicate check -/

/-- After the early check has let an entry through, the second duplicate check
does not find its identifier either. -/
theorem second_check_fails (pt : String → Time × Option Error) (st : LoopState)
    (e : AtomItem) (h : e.ID ∉ st.out.ItemMap) :
    (buildItem pt st.err e).1.ID ∉ st.out.ItemMap := by
  rw [buildItem_ID]
  exact h

theorem processItem_eq_noSecondCheck (pt : String → Time × Option Error) (debug : Bool) :
    processItem pt debug = processItemNoSecondCheck pt debug := by
  funext st e
  unfold processItem processItemNoSecondCheck
  by_cases h1 : e.ID ∈ st.out.ItemMap
  · simp [h1]
  · rw [if_neg h1, if_neg h1]
    simp only [if_neg (second_check_fails pt st e h1)]

theorem processItem_warnings (pt : String → Time × Option Error) (debug : Bool)
    (st : LoopState) (e : AtomItem) :
    (processItem pt debug st e).warnings =
      (st.warnings || (decide (e.ID ∉ st.out.ItemMap) && decide (e.ID = ""))) := by
  rw [processItem_eq_noSecondCheck]
  unfold processItemNoSecondCheck
  by_cases h1 : e.ID ∈ st.out.ItemMap
  · simp [h1]
  · rw [if_neg h1]
    by_cases h2 : e.ID = ""
    · have h3 : "" ∉ st.out.ItemMap := h2 ▸ h1
      simp [h2, h3, buildItem_ID]
    · simp [h2, buildItem_ID]

theorem processItems_warnings (pt : String → Time × Option Error) (debug : Bool)
    (es : List AtomItem) (st : LoopState) (h : "" ∉ st.out.ItemMap) :
    (processItems pt debug st es).warnings =
      (st.warnings || es.any (fun e => decide (e.ID = ""))) := by
  induction es generalizing st with
  | nil => simp [processItems]
  | cons e es ih =>
    have hstep : processItems pt debug st (e :: es) =
        processItems pt debug (processItem pt debug st e) es := rfl
    have hkeep : "" ∉ (processItem pt debug st e).out.ItemMap := by
      rw [processItem_out]
      by_cases hc : e.ID ∈ st.out.ItemMap ∨ e.ID = ""
      · rw [if_pos hc]
        exact h
      · rw [if_neg hc]
        rw [not_or] at hc
        intro hmem
        rcases Finset.mem_insert.1 hmem with heq | hmem
        · exact hc.2 heq.symm
        · exact h hmem
    rw [hstep, ih _ hkeep, processItem_warnings, List.any_cons]
    by_cases h2 : e.ID = ""
    · simp [h2, h]
    · simp [h2]

/-- The `warnings` flag at the end of the entry loop is set exactly by the
entries without identifier. -/
theorem entryLoop_warnings (pt : String → Time × Option Error) (now : Time) (debug : Bool)
    (doc : AtomFeed) :
    (entryLoop pt now debug doc).warnings = true ↔ ∃ e ∈ doc.Items, e.ID = "" := by
  unfold entryLoop
  rw [processItems_warnings pt debug doc.Items (initState now doc)
    (by simp [initState, initFeed, Feed.new])]
  simp [initState]

theorem processItem_stdout_false (pt : String → Time × Option Error) (st : LoopState)
    (e : AtomItem) : (processItem pt false st e).stdout = st.stdout := by
  rw [processItem_eq_noSecondCheck]
  unfold processItemNoSecondCheck
  by_cases h1 : e.ID ∈ st.out.ItemMap
  · simp [h1]
  · rw [if_neg h1]
    by_cases h2 : e.ID = ""
    · simp [h2, buildItem_ID]
    · simp [h2, buildItem_ID]

theorem processItems_stdout_false (pt : String → Time × Option Error)
    (es : List AtomItem) (st : LoopState) :
    (processItems pt false st es).stdout = st.stdout := by
  induction es generalizing st with
  | nil => rfl
  | cons e es ih =>
    have hstep : processItems pt false st (e :: es) =
        processItems pt false (processItem pt false st e) es := rfl
    rw [hstep, ih, processItem_stdout_false]

/-! ### Claims on warnings, the debug flag and repeated entries -/

/-- C15, the code at a document with two entries that carry the identifier a:
the second entry is skipped by the early check, the `warnings` flag is false
when the loop is left, and nothing is printed although `debug` is set. -/
theorem duplicate_leaves_warnings_false :
    (entryIDs duplicateEntries).count "a" = 2 ∧
      (entryLoop sampleParseTime Time.zero true duplicateEntries).out.Items.map Item.Title =
        ["first"] ∧
      (entryLoop sampleParseTime Time.zero true duplicateEntries).warnings = false ∧
      (parseAtom (sampleDecode duplicateEntries) sampleParseTime Time.zero true
        [60]).stdout = [] := by
  decide

/-- C16. With the same decoder, `parseTime`, clock reading and buffer,
`parseAtom` returns the same feed and the same error whether `debug` is set or
not, and it prints nothing when `debug` is not set. -/
theorem parseAtom_debug_irrelevant (decode : List Nat → Except Error AtomFeed)
    (pt : String → Time × Option Error) (now : Time) (data : List Nat) :
    (parseAtom decode pt now true data).feed = (parseAtom decode pt now false data).feed ∧
    (parseAtom decode pt now true data).err = (parseAtom decode pt now false data).err ∧
    (parseAtom decode pt now false data).stdout = [] := by
  cases hd : decode data with
  | error e => simp [parseAtom, hd]
  | ok doc =>
    refine ⟨?_, ?_, ?_⟩
    · rw [(parseAtom_ok decode pt now true data doc hd).1,
        (parseAtom_ok decode pt now false data doc hd).1, processItems_init_out,
        processItems_init_out]
    · rw [(parseAtom_ok decode pt now true data doc hd).2,
        (parseAtom_ok decode pt now false data doc hd).2]
    · simp [parseAtom, hd, entryLoop, processItems_stdout_false, initState]

/-- C17. When the early check has let an entry through, `next.ID` is the
identifier of the entry and the second duplicate check does not find it, in any
state of the loop; the loop and `parseAtom` with that check removed yield the
same state (feed, `warnings`, `err`, output) and the same result. -/
theorem second_check_unreachable (decode : List Nat → Except Error AtomFeed)
    (pt : String → Time × Option Error) (now : Time) (debug : Bool) (data : List Nat) :
    (∀ (st : LoopState) (item : AtomItem), item.ID ∉ st.out.ItemMap →
      (buildItem pt st.err item).1.ID = item.ID ∧
      (buildItem pt st.err item).1.ID ∉ st.out.ItemMap) ∧
    (∀ (st : LoopState) (item : AtomItem),
      processItemNoSecondCheck pt debug st item = processItem pt debug st item) ∧
    (∀ doc : AtomFeed,
      entryLoopNoSecondCheck pt now debug doc = entryLoop pt now debug doc) ∧
    parseAtomNoSecondCheck decode pt now debug data = parseAtom decode pt now debug data := by
  have hloop : ∀ doc : AtomFeed,
      entryLoopNoSecondCheck pt now debug doc = entryLoop pt now debug doc := by
    intro doc
    unfold entryLoopNoSecondCheck entryLoop processItems
    rw [processItem_eq_noSecondCheck]
  refine ⟨fun st item h => ⟨buildItem_ID pt st.err item, second_check_fails pt st item h⟩,
    fun st item => by rw [processItem_eq_noSecondCheck], hloop, ?_⟩
  unfold parseAtomNoSecondCheck parseAtom
  cases decode data with
  | error e => rfl
  | ok doc => simp only [hloop]

/-- C18. When the decoder succeeds on a document and on the same document with
further entries appended, the items of the former are an initial segment of the
items of the latter, its `Unread` is at most and its identifier set is contained
in those of the latter. -/
theorem parseAtom_appended_entries (decode : List Nat → Except Error AtomFeed)
    (pt : String → Time × Option Error) (now : Time) (debug : Bool)
    (data data' : List Nat) (doc : AtomFeed) (es' : List AtomItem)
    (h : decode data = Except.ok doc)
    (h' : decode data' = Except.ok { doc with Items := doc.Items ++ es' }) :
    ∃ f f', (parseAtom decode pt now debug data).feed = some f ∧
      (parseAtom decode pt now debug data').feed = some f' ∧
      (∃ rest, f'.Items = f.Items ++ rest) ∧
      f.Unread ≤ f'.Unread ∧ f.ItemMap ⊆ f'.ItemMap := by
  refine ⟨_, _, (parseAtom_ok decode pt now debug data doc h).1,
    (parseAtom_ok decode pt now debug data' _ h').1, ?_, ?_, ?_⟩
  · rw [processItems_init_out, processItems_init_out]
    simp only [acceptedFrom_append, List.map_append]
    exact ⟨_, rfl⟩
  · rw [processItems_init_out, processItems_init_out]
    simp only [acceptedFrom_append, List.length_append]
    omega
  · rw [processItems_init_out, processItems_init_out]
    simp only [acceptedFrom_append, List.map_append, List.toFinset_append]
    exact Finset.subset_union_left

/-- C18, instance: identifiers a, (none), b, a followed by a, b, c. -/
theorem parseAtom_appended_entries_witness :
    ∃ f f', (parseAtom (sampleDecodeTwo mixedEntries
          { mixedEntries with Items := mixedEntries.Items ++ distinctEntries })
        sampleParseTime Time.zero false [60]).feed = some f ∧
      (parseAtom (sampleDecodeTwo mixedEntries
          { mixedEntries with Items := mixedEntries.Items ++ distinctEntries })
        sampleParseTime Time.zero false [62]).feed = some f' ∧
      (∃ rest, f'.Items = f.Items ++ rest) ∧
      f.Unread ≤ f'.Unread ∧ f.ItemMap ⊆ f'.ItemMap :=
  parseAtom_appended_entries _ sampleParseTime Time.zero false [60] [62] mixedEntries
    distinctEntries rfl rfl

/-- C19. When the decoder succeeds on a document and on the document with its
entry list repeated, both yield the same `Items`, `ItemMap` and `Unread`; and
when the identifiers of the entries are non-empty and pairwise distinct, every
entry is accepted: the IDs of `Items` are the identifiers of the entries and
`Items` has as many items as there are entries. -/
theorem parseAtom_repeated_entries (decode : List Nat → Except Error AtomFeed)
    (pt : String → Time × Option Error) (now : Time) (debug : Bool)
    (data data' : List Nat) (doc : AtomFeed) (h : decode data = Except.ok doc)
    (h' : decode data' = Except.ok { doc with Items := doc.Items ++ doc.Items }) :
    ∃ f f', (parseAtom decode pt now debug data).feed = some f ∧
      (parseAtom decode pt now debug data').feed = some f' ∧
      f'.Items = f.Items ∧ f'.ItemMap = f.ItemMap ∧ f'.Unread = f.Unread ∧
      ((∀ e ∈ doc.Items, e.ID ≠ "") → (entryIDs doc).Nodup →
        f.Items.map Item.ID = entryIDs doc ∧ f.Items.length = doc.Items.length) := by
  have hrep : acceptedFrom ∅ (doc.Items ++ doc.Items) = acceptedFrom ∅ doc.Items := by
    have hnil := acceptedFrom_eq_nil
      (∅ ∪ ((acceptedFrom ∅ doc.Items).map AtomItem.ID).toFinset) doc.Items (by
        intro e he
        by_cases hne : e.ID = ""
        · exact Or.inr hne
        · refine Or.inl ?_
          rw [Finset.empty_union, List.mem_toFinset, mem_acceptedFrom_ids]
          exact ⟨List.mem_map_of_mem _ he, hne⟩)
    rw [acceptedFrom_append, hnil, List.append_nil]
  refine ⟨_, _, (parseAtom_ok decode pt now debug data doc h).1,
    (parseAtom_ok decode pt now debug data' _ h').1, ?_, ?_, ?_, ?_⟩
  · rw [processItems_init_out, processItems_init_out]
    simp only [hrep]
  · rw [processItems_init_out, processItems_init_out]
    simp only [hrep]
  · rw [processItems_init_out, processItems_init_out]
    simp only [hrep]
  · intro hne hnd
    have hall : acceptedFrom ∅ doc.Items = doc.Items :=
      acceptedFrom_eq_self ∅ doc.Items hne (fun _ _ => Finset.not_mem_empty _) hnd
    rw [processItems_init_out]
    simp only [hall, map_ID_built, List.length_map, entryIDs]
    exact ⟨trivial, trivial⟩

/-- C19, instance: identifiers a, (none), b, a against the same list twice. -/
theorem parseAtom_repeated_entries_witness :
    ∃ f f', (parseAtom (sampleDecodeTwo mixedEntries
          { mixedEntries with Items := mixedEntries.Items ++ mixedEntries.Items })
        sampleParseTime Time.zero false [60]).feed = some f ∧
      (parseAtom (sampleDecodeTwo mixedEntries
          { mixedEntries with Items := mixedEntries.Items ++ mixedEntries.Items })
        sampleParseTime Time.zero false [62]).feed = some f' ∧
      f'.Items = f.Items ∧ f'.ItemMap = f.ItemMap ∧ f'.Unread = f.Unread := by
  obtain ⟨f, f', hf, hf', h1, h2, h3, _⟩ := parseAtom_repeated_entries
    (sampleDecodeTwo mixedEntries
      { mixedEntries with Items := mixedEntries.Items ++ mixedEntries.Items })
    sampleParseTime Time.zero false [60] [62] mixedEntries rfl rfl
  exact ⟨f, f', hf, hf', h1, h2, h3⟩

end Rss
